import Mathlib

/-!
Shallow embedding of the arbitrage-scanner core:

* `app.py` — market normalization (`process_markets`), the binary-outcome
  opportunity classifier and ranker (`find_arbitrage_opportunities`);
* `dex_arbitrage_detector.py` — the cross-exchange spread detector
  (`DexArbitrageDetector.find_arbitrage_opportunities`);
* `dex_arbitrage_dashboard.py` — the bounded in-memory opportunity history.

Python floats are modelled as rationals (`ℚ`); a Python expression that can
raise is modelled in `Option`/`Except` (`none`/`.error` = an exception is
raised at that point and propagates).
-/

namespace PolyArb

/-- A JSON-ish Python value as it matters to `process_markets`: what
`float(v)` does to it and what its truthiness is.
`num q` — a number; `numStr q` — a nonempty string parsing as the number `q`;
`emptyStr` — the empty string (falsy, `float` raises); `badStr` — a nonempty
non-numeric string (truthy, `float` raises); `null` — Python `None`. -/
inductive JVal where
  | num (q : ℚ)
  | numStr (q : ℚ)
  | emptyStr
  | badStr
  | null
deriving DecidableEq

/-- Python `float(v)`: `none` means the call raises (`ValueError`/`TypeError`). -/
def pyFloat : JVal → Option ℚ
  | .num q => some q
  | .numStr q => some q
  | .emptyStr => none
  | .badStr => none
  | .null => none

/-- Python truthiness of a `JVal` (`bool(v)`). -/
def pyTruthy : JVal → Bool
  | .num q => q != 0
  | .numStr _ => true
  | .emptyStr => false
  | .badStr => true
  | .null => false

/-- One processed market record, as appended by `process_markets` (app.py
lines 99–109 / 116–126): the canonical quote shape. -/
structure ProcessedMarket where
  id : Option JVal
  question : String
  slug : String
  yes_price : ℚ
  no_price : ℚ
  volume : ℚ
  liquidity : ℚ
  end_date : String
  url : String
deriving DecidableEq

/-- An opportunity dict as built by `find_arbitrage_opportunities`
(app.py lines 155–169, 177–191, 201–215), with the presentational
`action` string omitted. -/
structure Opp where
  type : String
  question : String
  strategy : String
  yes_price : ℚ
  no_price : ℚ
  total_price : ℚ
  investment : ℚ
  profit : ℚ
  profit_pct : ℚ
  risk : String
  liquidity : ℚ
  url : String
deriving DecidableEq

/-- The per-market body of the loop in `find_arbitrage_opportunities`
(app.py lines 136–215).  Returns the opportunities appended for this market
(`[]` or a singleton), or `.error` when the Python code raises — which
happens exactly when an outcome price is `0.0` in the sure-win branch
(`(investment * 0.5) / price` with a zero divisor). -/
def classifyMarketE (m : ProcessedMarket) (minProfitPct maxInvestment : ℚ) :
    Except String (List Opp) :=
  let total_price := m.yes_price + m.no_price
  let available_liquidity := min (m.liquidity * (1/10)) maxInvestment
  if available_liquidity < 10 then .ok []
  else
    let investment := min maxInvestment available_liquidity
    if total_price < 98/100 then
      if m.yes_price = 0 ∨ m.no_price = 0 then
        .error "ZeroDivisionError: float division by zero"
      else
        let yes_shares := investment * (1/2) / m.yes_price
        let no_shares := investment * (1/2) / m.no_price
        let guaranteed_return := min yes_shares no_shares
        let profit := guaranteed_return - investment
        let profit_pct := profit / investment * 100
        if minProfitPct ≤ profit_pct then
          .ok [{ type := "Sure Win", question := m.question,
                 strategy := "Buy both Yes & No",
                 yes_price := m.yes_price, no_price := m.no_price,
                 total_price := total_price, investment := investment,
                 profit := profit, profit_pct := profit_pct,
                 risk := "None", liquidity := m.liquidity, url := m.url }]
        else .ok []
    else if 102/100 < total_price then
      let profit := investment * (total_price - 1) * (8/10)
      let profit_pct := profit / investment * 100
      if minProfitPct ≤ profit_pct then
        .ok [{ type := "Overpriced", question := m.question,
               strategy := "Provide liquidity or short both",
               yes_price := m.yes_price, no_price := m.no_price,
               total_price := total_price, investment := investment,
               profit := profit, profit_pct := profit_pct,
               risk := "Low", liquidity := m.liquidity, url := m.url }]
      else .ok []
    else if (m.yes_price < 15/100 ∨ 85/100 < m.yes_price) ∧ 5000 < m.liquidity then
      let expected_value : ℚ := if m.yes_price < 15/100 then 1/4 else 3/4
      let profit := investment * |expected_value - m.yes_price|
      let profit_pct := profit / investment * 100
      if minProfitPct * 2 ≤ profit_pct then
        let side : String := if m.yes_price < 15/100 then "Yes" else "No"
        .ok [{ type := "Value Bet", question := m.question,
               strategy := "Buy underpriced " ++ side,
               yes_price := m.yes_price, no_price := m.no_price,
               total_price := total_price, investment := investment,
               profit := profit, profit_pct := profit_pct,
               risk := "Medium", liquidity := m.liquidity, url := m.url }]
      else .ok []
    else .ok []

/-- A raw market record in the Gamma API shape, with exactly the fields
`process_markets` reads (app.py lines 98–108); `none` = the key is absent
from the dict (`market.get` falls back to its default). -/
structure GammaMarket where
  id : Option JVal
  question : Option String
  slug : Option String
  outcomePrices : Option (List JVal)
  volume : Option JVal
  liquidity : Option JVal
  endDate : Option String
deriving DecidableEq

/-- One token entry of a CLOB-format market (app.py lines 112–114). -/
structure ClobToken where
  price : Option JVal
deriving DecidableEq

/-- A raw market record in the CLOB API shape, with exactly the fields
`process_markets` reads (app.py lines 112–125). -/
structure ClobMarket where
  condition_id : Option JVal
  question : Option String
  slug : Option String
  tokens : Option (List ClobToken)
  volume : Option JVal
  liquidity : Option JVal
  end_date_iso : Option String
deriving DecidableEq

/-- The gamma branch of the per-record `try` body in `process_markets`
(app.py lines 96–109): `none` = the record raised somewhere and the
`except ... continue` drops it. -/
def processOneGamma (m : GammaMarket) : Option ProcessedMarket := do
  let prices := m.outcomePrices.getD [JVal.numStr (1/2), JVal.numStr (1/2)]
  let p0 ← prices.get? 0
  let yes_price ← if pyTruthy p0 then pyFloat p0 else some (1/2)
  let no_price ←
    match prices.get? 1 with
    | some p1 => if pyTruthy p1 then pyFloat p1 else some (1/2)
    | none => some (1/2)
  let volume ← pyFloat (m.volume.getD (JVal.num 0))
  let liquidity ← pyFloat (m.liquidity.getD (JVal.num 0))
  some { id := m.id, question := m.question.getD "N/A", slug := m.slug.getD "",
         yes_price := yes_price, no_price := no_price,
         volume := volume, liquidity := liquidity,
         end_date := m.endDate.getD "N/A",
         url := "https://polymarket.com/event/" ++ m.slug.getD "" }

/-- The clob branch of the per-record `try` body in `process_markets`
(app.py lines 111–126). -/
def processOneClob (m : ClobMarket) : Option ProcessedMarket := do
  let tokens := m.tokens.getD []
  let yes_price ←
    match tokens with
    | [] => some (1/2)
    | t :: _ => pyFloat (t.price.getD (JVal.num (1/2)))
  let no_price ←
    match tokens.get? 1 with
    | some t => pyFloat (t.price.getD (JVal.num (1/2)))
    | none => some (1/2)
  let volume ← pyFloat (m.volume.getD (JVal.num 0))
  let liquidity ← pyFloat (m.liquidity.getD (JVal.num 0))
  some { id := m.condition_id, question := m.question.getD "N/A",
         slug := m.slug.getD "",
         yes_price := yes_price, no_price := no_price,
         volume := volume, liquidity := liquidity,
         end_date := m.end_date_iso.getD "N/A",
         url := "https://polymarket.com/event/" ++ m.slug.getD "" }

/-- `process_markets(raw_markets, 'gamma')` (app.py lines 90–130): each raw
record yields one processed record, or is silently dropped when its `try`
body raises. -/
def processMarketsGamma (raw : List GammaMarket) : List ProcessedMarket :=
  raw.filterMap processOneGamma

/-- `process_markets(raw_markets, 'clob')` (app.py lines 90–130). -/
def processMarketsClob (raw : List ClobMarket) : List ProcessedMarket :=
  raw.filterMap processOneClob

/-- Index used by the ranker's primary sort key: risk `'None'` first
(app.py line 219). -/
def riskIdx (o : Opp) : Nat := if o.risk = "None" then 0 else 1

/-- The ranker's comparison: `a` may stay before `b` under the Python sort
key `(0 if risk == 'None' else 1, -profit_pct)` (app.py lines 218–221). -/
def oppLE (a b : Opp) : Bool :=
  decide (riskIdx a < riskIdx b) ||
    (decide (riskIdx a = riskIdx b) && decide (b.profit_pct ≤ a.profit_pct))

/-- `opportunities.sort(key=...)` — Python's stable sort on the ranking key
(app.py lines 218–221). -/
def rankOpportunities (l : List Opp) : List Opp := l.mergeSort oppLE

/-- `find_arbitrage_opportunities(markets, min_profit_pct, max_investment)`
(app.py lines 132–223): classify each market in order — an exception in one
market's classification propagates, aborting the whole call — then rank. -/
def findArbitrageOpportunities (markets : List ProcessedMarket)
    (minProfitPct maxInvestment : ℚ) : Except String (List Opp) := do
  let opps ← markets.foldlM (fun acc m => do
    let new ← classifyMarketE m minProfitPct maxInvestment
    pure (acc ++ new)) []
  pure (rankOpportunities opps)

/-- `ArbitrageOpportunity` (dex_arbitrage_detector.py lines 21–34), with the
wall-clock `timestamp` omitted. -/
structure ExOpp where
  token_pair : String
  buy_exchange : String
  sell_exchange : String
  buy_price : ℚ
  sell_price : ℚ
  profit_percentage : ℚ
deriving DecidableEq

/-- `ArbitrageOpportunity.profit_per_unit` (dex_arbitrage_detector.py
lines 32–34). -/
def ExOpp.profit_per_unit (o : ExOpp) : ℚ := o.sell_price - o.buy_price

/-- The price-collection loop for one symbol (dex_arbitrage_detector.py
lines 107–113): `fetch e` is the result of `self.get_price(e, symbol)`
(`none` = no usable price / the fetch failed); an entry joins the dict only
when it is truthy, so `None` and `0.0` are both excluded. -/
def collectPrices (fetch : String → Option ℚ) (exchanges : List String) :
    List (String × ℚ) :=
  exchanges.filterMap fun e =>
    (fetch e).bind fun p => if p ≠ 0 then some (e, p) else none

/-- Python `min(prices, key=prices.get)` over the insertion-ordered dict:
the first entry carrying the minimal value. -/
def minByVal : List (String × ℚ) → Option (String × ℚ)
  | [] => none
  | x :: xs => some (xs.foldl (fun acc y => if y.2 < acc.2 then y else acc) x)

/-- Python `max(prices, key=prices.get)`: the first entry carrying the
maximal value. -/
def maxByVal : List (String × ℚ) → Option (String × ℚ)
  | [] => none
  | x :: xs => some (xs.foldl (fun acc y => if acc.2 < y.2 then y else acc) x)

/-- The per-symbol body of `DexArbitrageDetector.find_arbitrage_opportunities`
(dex_arbitrage_detector.py lines 106–138): the opportunities recorded for one
symbol (`[]` or a singleton). -/
def detectSymbol (fetch : String → Option ℚ) (exchanges : List String)
    (minProfitPercentage : ℚ) (symbol : String) : List ExOpp :=
  let prices := collectPrices fetch exchanges
  if 2 ≤ prices.length then
    match minByVal prices, maxByVal prices with
    | some mn, some mx =>
      let profit_percentage := (mx.2 - mn.2) / mn.2 * 100
      if minProfitPercentage ≤ profit_percentage then
        [{ token_pair := symbol, buy_exchange := mn.1, sell_exchange := mx.1,
           buy_price := mn.2, sell_price := mx.2,
           profit_percentage := profit_percentage }]
      else []
    | _, _ => []
  else []

/-- `DexArbitrageDetector.find_arbitrage_opportunities(token_pairs)`
(dex_arbitrage_detector.py lines 99–142): per-symbol detection over the
symbol list, then a stable sort by profit percentage, highest first.
`fetch e s` models `self.get_price(e, s)`. -/
def dexFindArbitrageOpportunities (fetch : String → String → Option ℚ)
    (exchanges : List String) (minProfitPercentage : ℚ)
    (tokenPairs : List String) : List ExOpp :=
  (tokenPairs.flatMap fun s => detectSymbol (fun e => fetch e s) exchanges
      minProfitPercentage s).mergeSort
    fun a b => decide (b.profit_percentage ≤ a.profit_percentage)

/-- The history update at the end of a completed dashboard scan
(dex_arbitrage_dashboard.py lines 256–264): extend only when the scan found
opportunities, then keep the most recent 100 (`history[-100:]`). -/
def updateOpportunitiesHistory (history opportunities : List ExOpp) :
    List ExOpp :=
  if opportunities = [] then history
  else
    let extended := history ++ opportunities
    if 100 < extended.length then extended.drop (extended.length - 100)
    else extended

/-! Named readings of the classifier's intermediate quantities
(app.py lines 144, 148–152), used to state the claims. -/

/-- `investment = min(max_investment, available_liquidity)` (app.py line 144). -/
def investmentOf (m : ProcessedMarket) (M : ℚ) : ℚ :=
  min M (min (m.liquidity * (1/10)) M)

/-- The sure-win branch's `profit = min(yes_shares, no_shares) - investment`
(app.py lines 148–151). -/
def sureWinProfit (m : ProcessedMarket) (M : ℚ) : ℚ :=
  min (investmentOf m M * (1/2) / m.yes_price)
    (investmentOf m M * (1/2) / m.no_price) - investmentOf m M

/-- The sure-win branch's `profit_pct` (app.py line 152). -/
def sureWinPct (m : ProcessedMarket) (M : ℚ) : ℚ :=
  sureWinProfit m M / investmentOf m M * 100

/-- The cross-exchange `profit_percentage` computed from a collected price
dict (dex_arbitrage_detector.py line 125); `0` when fewer than one price. -/
def spreadPct (prices : List (String × ℚ)) : ℚ :=
  match minByVal prices, maxByVal prices with
  | some mn, some mx => (mx.2 - mn.2) / mn.2 * 100
  | _, _ => 0

/-! Concrete sample inputs and outputs used by witnesses and
counterexamples. -/

/-- A processed quote with the given prices and liquidity. -/
def sampleQuote (y n l : ℚ) : ProcessedMarket :=
  { id := none, question := "Q", slug := "s", yes_price := y, no_price := n,
    volume := 0, liquidity := l, end_date := "d", url := "u" }

/-- The opportunity the classifier emits for
`sampleQuote (45/100) (47/100) 2000` at threshold 2, cap 100
(the spec's own sure-win worked example). -/
def sureWinSampleOpp : Opp :=
  { type := "Sure Win", question := "Q", strategy := "Buy both Yes & No",
    yes_price := 45/100, no_price := 47/100, total_price := 23/25,
    investment := 100, profit := 300/47, profit_pct := 300/47,
    risk := "None", liquidity := 2000, url := "u" }

/-- The opportunity emitted for `sampleQuote (60/100) (50/100) 1000`
at threshold 2, cap 100 (the spec's overpriced worked example). -/
def overpricedSampleOpp : Opp :=
  { type := "Overpriced", question := "Q",
    strategy := "Provide liquidity or short both",
    yes_price := 60/100, no_price := 50/100, total_price := 11/10,
    investment := 100, profit := 8, profit_pct := 8,
    risk := "Low", liquidity := 1000, url := "u" }

/-- The opportunity emitted for `sampleQuote (1/10) (88/100) 6000`
at threshold 2, cap 100. -/
def valueBetSampleOpp : Opp :=
  { type := "Value Bet", question := "Q", strategy := "Buy underpriced Yes",
    yes_price := 1/10, no_price := 88/100, total_price := 49/50,
    investment := 100, profit := 15, profit_pct := 15,
    risk := "Medium", liquidity := 6000, url := "u" }

/-- A gamma record in which every optional field is absent. -/
def gammaNoFields : GammaMarket :=
  { id := none, question := none, slug := none, outcomePrices := none,
    volume := none, liquidity := none, endDate := none }

/-- A gamma record carrying an id and a question but a malformed
(non-numeric, nonempty) first outcome price. -/
def gammaBadPrice : GammaMarket :=
  { id := some (.num 7), question := some "Q", slug := some "s",
    outcomePrices := some [.badStr, .numStr (1/2)],
    volume := some (.num 0), liquidity := some (.num 0), endDate := some "d" }

/-- A clob record in which every optional field is absent. -/
def clobNoFields : ClobMarket :=
  { condition_id := none, question := none, slug := none, tokens := none,
    volume := none, liquidity := none, end_date_iso := none }

/-- Two opportunities that differ only in their question, sharing risk tier
and profit percentage. -/
def rankSampleA : Opp :=
  { type := "Overpriced", question := "first",
    strategy := "Provide liquidity or short both",
    yes_price := 60/100, no_price := 50/100, total_price := 11/10,
    investment := 100, profit := 8, profit_pct := 8,
    risk := "Low", liquidity := 1000, url := "u" }

/-- See `rankSampleA`. -/
def rankSampleB : Opp :=
  { type := "Overpriced", question := "second",
    strategy := "Provide liquidity or short both",
    yes_price := 60/100, no_price := 50/100, total_price := 11/10,
    investment := 100, profit := 8, profit_pct := 8,
    risk := "Low", liquidity := 1000, url := "u" }

/-- A concrete price-fetch outcome: exchange `A` answers 100, `B` answers
101.5, `C` has no usable price (the spec's cross-exchange worked example). -/
def sampleFetch (e : String) : Option ℚ :=
  if e = "A" then some 100 else if e = "B" then some (203/2) else none

/-- A concrete cross-exchange opportunity record. -/
def dexOppSample : ExOpp :=
  { token_pair := "X", buy_exchange := "A", sell_exchange := "B",
    buy_price := 100, sell_price := 203/2, profit_percentage := 3/2 }

/-- C1: the quote with prices 0.9 and 0.05 has total 0.95 < 0.98 and passes
the $10 liquidity floor, yet the classifier emits no SureWin opportunity for
it at the default threshold 2 and cap 100, and the branch's computed profit
`min(shares_a, shares_b) - investment` is negative — refuting both the
unconditional emission and the profit ≥ 0 part of the claim. -/
theorem sureWin_branch_counterexample :
    (sampleQuote (9/10) (1/20) 2000).yes_price
        + (sampleQuote (9/10) (1/20) 2000).no_price < 98/100
    ∧ ¬ min ((sampleQuote (9/10) (1/20) 2000).liquidity * (1/10)) 100 < 10
    ∧ classifyMarketE (sampleQuote (9/10) (1/20) 2000) 2 100 = .ok []
    ∧ sureWinProfit (sampleQuote (9/10) (1/20) 2000) 100 < 0 := by
  refine ⟨by norm_num [sampleQuote], by norm_num [sampleQuote], ?_, ?_⟩
  · simp only [classifyMarketE, sampleQuote]
    norm_num
  · norm_num [sureWinProfit, investmentOf, sampleQuote]

/-- C1 (amended): for every canonical quote with p_a + p_b < 0.98, positive
outcome prices, and liquidity passing the $10 floor, the classifier computes
shares_a = (investment/2)/p_a, shares_b = (investment/2)/p_b,
guaranteed_return = min(shares_a, shares_b), profit = guaranteed_return −
investment, and emits a SureWin opportunity — with profit_percentage exactly
(min(shares_a, shares_b) − investment)/investment·100 — precisely when that
percentage meets the threshold T; and whenever T ≥ 0, the profit of an
emitted SureWin opportunity is ≥ 0. -/
theorem sureWin_branch_spec (m : ProcessedMarket) (T M : ℚ)
    (hfloor : ¬ min (m.liquidity * (1/10)) M < 10)
    (htot : m.yes_price + m.no_price < 98/100)
    (hy : 0 < m.yes_price) (hn : 0 < m.no_price) :
    classifyMarketE m T M = .ok (
      if T ≤ sureWinPct m M then
        [{ type := "Sure Win", question := m.question,
           strategy := "Buy both Yes & No",
           yes_price := m.yes_price, no_price := m.no_price,
           total_price := m.yes_price + m.no_price,
           investment := investmentOf m M,
           profit := sureWinProfit m M, profit_pct := sureWinPct m M,
           risk := "None", liquidity := m.liquidity, url := m.url }]
      else [])
    ∧ (0 ≤ T → T ≤ sureWinPct m M → 0 ≤ sureWinProfit m M) := by
  constructor
  · unfold classifyMarketE
    rw [if_neg hfloor, if_pos htot, if_neg (not_or.mpr ⟨hy.ne', hn.ne'⟩)]
    simp only [sureWinPct, sureWinProfit, investmentOf]
    split <;> rfl
  · intro hT hpct
    have hA : (10:ℚ) ≤ min (m.liquidity * (1/10)) M := not_lt.mp hfloor
    have hinv : (0:ℚ) < investmentOf m M := by
      have hM : (10:ℚ) ≤ M := le_trans hA (min_le_right _ _)
      have : (10:ℚ) ≤ investmentOf m M := le_min hM hA
      linarith
    by_contra hneg
    push_neg at hneg
    have h1 : sureWinProfit m M / investmentOf m M < 0 :=
      div_neg_of_neg_of_pos hneg hinv
    have h2 : sureWinPct m M < 0 := by
      unfold sureWinPct
      nlinarith
    linarith [le_trans hT hpct]

/-- C1 witness: the spec's own worked example (prices 0.45/0.47, liquidity
2000, T = 2, M = 100) satisfies the hypotheses of `sureWin_branch_spec`. -/
theorem sureWin_branch_spec_witness :
    (¬ min ((sampleQuote (45/100) (47/100) 2000).liquidity * (1/10)) 100 < 10)
    ∧ ((sampleQuote (45/100) (47/100) 2000).yes_price
        + (sampleQuote (45/100) (47/100) 2000).no_price < 98/100)
    ∧ ((0:ℚ) < (sampleQuote (45/100) (47/100) 2000).yes_price)
    ∧ ((0:ℚ) < (sampleQuote (45/100) (47/100) 2000).no_price)
    ∧ (classifyMarketE (sampleQuote (45/100) (47/100) 2000) 2 100 = .ok (
        if (2:ℚ) ≤ sureWinPct (sampleQuote (45/100) (47/100) 2000) 100 then
          [{ type := "Sure Win", question := "Q",
             strategy := "Buy both Yes & No",
             yes_price := 45/100, no_price := 47/100,
             total_price := 45/100 + 47/100,
             investment := investmentOf (sampleQuote (45/100) (47/100) 2000) 100,
             profit := sureWinProfit (sampleQuote (45/100) (47/100) 2000) 100,
             profit_pct := sureWinPct (sampleQuote (45/100) (47/100) 2000) 100,
             risk := "None", liquidity := 2000, url := "u" }]
        else [])
       ∧ ((0:ℚ) ≤ 2 → (2:ℚ) ≤ sureWinPct (sampleQuote (45/100) (47/100) 2000) 100 →
          0 ≤ sureWinProfit (sampleQuote (45/100) (47/100) 2000) 100)) :=
  ⟨by norm_num [sampleQuote], by norm_num [sampleQuote],
   by norm_num [sampleQuote], by norm_num [sampleQuote],
   sureWin_branch_spec (sampleQuote (45/100) (47/100) 2000) 2 100
     (by norm_num [sampleQuote]) (by norm_num [sampleQuote])
     (by norm_num [sampleQuote]) (by norm_num [sampleQuote])⟩

/-- C2: classification is not isolated per instrument — a quote whose yes
price is 0.0 with total < 0.98 makes `find_arbitrage_opportunities` raise
`ZeroDivisionError`, aborting the scan, although the other quote in the
list yields a SureWin opportunity when scanned alone. -/
theorem zero_price_aborts_scan :
    findArbitrageOpportunities
        [sampleQuote 0 (1/2) 2000, sampleQuote (45/100) (47/100) 2000] 2 100
      = .error "ZeroDivisionError: float division by zero"
    ∧ findArbitrageOpportunities [sampleQuote (45/100) (47/100) 2000] 2 100
      = .ok [sureWinSampleOpp] := by
  constructor
  · simp only [findArbitrageOpportunities, classifyMarketE, sampleQuote,
      List.foldlM, bind, Except.bind]
    norm_num
  · simp only [findArbitrageOpportunities, classifyMarketE, sampleQuote,
      List.foldlM, bind, Except.bind, pure, Except.pure, rankOpportunities,
      sureWinSampleOpp]
    norm_num [List.mergeSort]

/-- C3: a gamma record that carries an identifiable instrument label
(id 7, question present) but a malformed first outcome price is silently
dropped by the normalizer instead of receiving the neutral default price —
refuting both the malformed-field-defaulting part of the claim and the part
restricting silent drops to label-less records. -/
theorem malformed_labelled_record_dropped :
    processOneGamma gammaBadPrice = none
    ∧ gammaBadPrice.id = some (.num 7) := by
  constructor
  · rfl
  · rfl

/-- `float` on a numeric string succeeds. -/
lemma pyFloat_numStr (q : ℚ) : pyFloat (.numStr q) = some q := rfl

/-- `float` on a number succeeds. -/
lemma pyFloat_num (q : ℚ) : pyFloat (.num q) = some q := rfl

/-- A numeric string is truthy (it is nonempty). -/
lemma pyTruthy_numStr (q : ℚ) : pyTruthy (.numStr q) = true := rfl

/-- Inversion for a kept gamma record: its volume and liquidity are exactly
the parsed values of the respective fields (after the absent-field
default). -/
lemma processOneGamma_inv {g : GammaMarket} {q : ProcessedMarket}
    (hq : processOneGamma g = some q) :
    (∃ vol, pyFloat (g.volume.getD (JVal.num 0)) = some vol ∧ q.volume = vol)
    ∧ (∃ liq, pyFloat (g.liquidity.getD (JVal.num 0)) = some liq
        ∧ q.liquidity = liq) := by
  unfold processOneGamma at hq
  simp only [bind] at hq
  rw [Option.bind_eq_some] at hq
  obtain ⟨p0, h0, hq⟩ := hq
  split at hq
  all_goals rw [Option.bind_eq_some] at hq
  all_goals obtain ⟨yes, hyes, hq⟩ := hq
  all_goals try split at hq
  all_goals try split at hq
  all_goals rw [Option.bind_eq_some] at hq
  all_goals obtain ⟨no, hno, hq⟩ := hq
  all_goals rw [Option.bind_eq_some] at hq
  all_goals obtain ⟨vol, hvol, hq⟩ := hq
  all_goals rw [Option.bind_eq_some] at hq
  all_goals obtain ⟨liq, hliq, hq⟩ := hq
  all_goals injection hq with hq
  all_goals subst hq
  all_goals exact ⟨⟨vol, hvol, rfl⟩, ⟨liq, hliq, rfl⟩⟩

/-- Inversion for a kept clob record: its volume and liquidity are exactly
the parsed values of the respective fields. -/
lemma processOneClob_inv {c : ClobMarket} {q : ProcessedMarket}
    (hq : processOneClob c = some q) :
    (∃ vol, pyFloat (c.volume.getD (JVal.num 0)) = some vol ∧ q.volume = vol)
    ∧ (∃ liq, pyFloat (c.liquidity.getD (JVal.num 0)) = some liq
        ∧ q.liquidity = liq) := by
  unfold processOneClob at hq
  simp only [bind] at hq
  split at hq
  all_goals rw [Option.bind_eq_some] at hq
  all_goals obtain ⟨yes, hyes, hq⟩ := hq
  all_goals try split at hq
  all_goals rw [Option.bind_eq_some] at hq
  all_goals obtain ⟨no, hno, hq⟩ := hq
  all_goals rw [Option.bind_eq_some] at hq
  all_goals obtain ⟨vol, hvol, hq⟩ := hq
  all_goals rw [Option.bind_eq_some] at hq
  all_goals obtain ⟨liq, hliq, hq⟩ := hq
  all_goals injection hq with hq
  all_goals subst hq
  all_goals exact ⟨⟨vol, hvol, rfl⟩, ⟨liq, hliq, rfl⟩⟩

/-- C3 (amended): the normalizer is total (never raises) and yields zero or
one canonical quote per record, in both source formats; each absent
price/volume/liquidity field individually behaves exactly as its neutral
default (prices 0.5, volume/liquidity 0) — so its absence never drops the
record — and a kept record carries those default values; a field that is
present but malformed (for gamma prices: truthy yet unparseable; for clob
prices and for volume/liquidity in both formats: unparseable) silently
drops the record; and the instrument label only lands in the output,
never deciding whether a record is dropped. -/
theorem normalizer_defaults_and_drops :
    (∀ raw : List GammaMarket, (processMarketsGamma raw).length ≤ raw.length)
    ∧ (∀ raw : List ClobMarket, (processMarketsClob raw).length ≤ raw.length)
    ∧ (∀ g : GammaMarket, processOneGamma { g with outcomePrices := none }
        = processOneGamma
            { g with outcomePrices := some [.numStr (1/2), .numStr (1/2)] })
    ∧ (∀ g : GammaMarket, processOneGamma { g with volume := none }
        = processOneGamma { g with volume := some (.num 0) })
    ∧ (∀ g : GammaMarket, processOneGamma { g with liquidity := none }
        = processOneGamma { g with liquidity := some (.num 0) })
    ∧ (∀ (g : GammaMarket) (q : ProcessedMarket), processOneGamma g = some q →
        (g.outcomePrices = none → q.yes_price = 1/2 ∧ q.no_price = 1/2)
        ∧ (g.volume = none → q.volume = 0)
        ∧ (g.liquidity = none → q.liquidity = 0))
    ∧ (∀ (g : GammaMarket) (p0 : JVal) (rest : List JVal),
        g.outcomePrices = some (p0 :: rest) → pyTruthy p0 = true →
        pyFloat p0 = none → processOneGamma g = none)
    ∧ (∀ (g : GammaMarket) (p0 p1 : JVal) (rest : List JVal),
        g.outcomePrices = some (p0 :: p1 :: rest) → pyTruthy p1 = true →
        pyFloat p1 = none → processOneGamma g = none)
    ∧ (∀ (g : GammaMarket) (v : JVal), g.volume = some v →
        pyFloat v = none → processOneGamma g = none)
    ∧ (∀ (g : GammaMarket) (v : JVal), g.liquidity = some v →
        pyFloat v = none → processOneGamma g = none)
    ∧ (∀ (g : GammaMarket) (i : Option JVal), processOneGamma { g with id := i }
        = (processOneGamma g).map fun q => { q with id := i })
    ∧ (∀ c : ClobMarket, processOneClob { c with tokens := none }
        = processOneClob { c with tokens := some [] })
    ∧ (∀ c : ClobMarket, processOneClob { c with volume := none }
        = processOneClob { c with volume := some (.num 0) })
    ∧ (∀ c : ClobMarket, processOneClob { c with liquidity := none }
        = processOneClob { c with liquidity := some (.num 0) })
    ∧ (∀ (c : ClobMarket) (q : ProcessedMarket), processOneClob c = some q →
        (c.tokens = none → q.yes_price = 1/2 ∧ q.no_price = 1/2)
        ∧ (c.volume = none → q.volume = 0)
        ∧ (c.liquidity = none → q.liquidity = 0))
    ∧ (∀ (c : ClobMarket) (rest : List ClobToken) (q : ProcessedMarket),
        c.tokens = some ({ price := none } :: rest) →
        processOneClob c = some q → q.yes_price = 1/2)
    ∧ (∀ (c : ClobMarket) (v : JVal) (rest : List ClobToken),
        c.tokens = some ({ price := some v } :: rest) →
        pyFloat v = none → processOneClob c = none)
    ∧ (∀ (c : ClobMarket) (t0 : ClobToken) (v : JVal) (rest : List ClobToken),
        c.tokens = some (t0 :: { price := some v } :: rest) →
        pyFloat v = none → processOneClob c = none)
    ∧ (∀ (c : ClobMarket) (v : JVal), c.volume = some v →
        pyFloat v = none → processOneClob c = none)
    ∧ (∀ (c : ClobMarket) (v : JVal), c.liquidity = some v →
        pyFloat v = none → processOneClob c = none)
    ∧ (∀ (c : ClobMarket) (i : Option JVal),
        processOneClob { c with condition_id := i }
        = (processOneClob c).map fun q => { q with id := i }) := by
  refine ⟨fun raw => List.length_filterMap_le _ _,
    fun raw => List.length_filterMap_le _ _,
    fun g => rfl, fun g => rfl, fun g => rfl, ?_, ?_, ?_, ?_, ?_, ?_,
    fun c => rfl, fun c => rfl, fun c => rfl, ?_, ?_, ?_, ?_, ?_, ?_, ?_⟩
  · intro g q hq
    refine ⟨?_, ?_, ?_⟩
    · intro habs
      have hstep : processOneGamma g
          = (pyFloat (g.volume.getD (JVal.num 0))).bind (fun volume =>
              (pyFloat (g.liquidity.getD (JVal.num 0))).bind (fun liquidity =>
                some { id := g.id, question := g.question.getD "N/A",
                       slug := g.slug.getD "", yes_price := 1/2,
                       no_price := 1/2, volume := volume,
                       liquidity := liquidity,
                       end_date := g.endDate.getD "N/A",
                       url := "https://polymarket.com/event/"
                         ++ g.slug.getD "" })) := by
        unfold processOneGamma
        rw [habs]
        rfl
      rw [hstep, Option.bind_eq_some] at hq
      obtain ⟨vol, hvol, hq⟩ := hq
      rw [Option.bind_eq_some] at hq
      obtain ⟨liq, hliq, hq⟩ := hq
      injection hq with hq
      subst hq
      exact ⟨rfl, rfl⟩
    · intro habs
      obtain ⟨⟨vol, hvol, hqv⟩, -⟩ := processOneGamma_inv hq
      rw [habs] at hvol
      simp only [Option.getD_none, pyFloat_num, Option.some.injEq] at hvol
      subst hvol
      exact hqv
    · intro habs
      obtain ⟨-, ⟨liq, hliq, hql⟩⟩ := processOneGamma_inv hq
      rw [habs] at hliq
      simp only [Option.getD_none, pyFloat_num, Option.some.injEq] at hliq
      subst hliq
      exact hql
  · intro g p0 rest hop ht hf
    simp [processOneGamma, hop, ht, hf]
  · intro g p0 p1 rest hop ht hf
    simp [processOneGamma, hop, ht, hf]
  · intro g v hv hf
    cases hres : processOneGamma g with
    | none => rfl
    | some q =>
      obtain ⟨⟨vol, hvol, -⟩, -⟩ := processOneGamma_inv hres
      rw [hv, Option.getD_some, hf] at hvol
      exact Option.noConfusion hvol
  · intro g v hv hf
    cases hres : processOneGamma g with
    | none => rfl
    | some q =>
      obtain ⟨-, ⟨liq, hliq, -⟩⟩ := processOneGamma_inv hres
      rw [hv, Option.getD_some, hf] at hliq
      exact Option.noConfusion hliq
  · intro g i
    unfold processOneGamma
    dsimp only
    cases h1 : (g.outcomePrices.getD
        [JVal.numStr (1/2), JVal.numStr (1/2)]).get? 1 with
    | none =>
      simp only [bind, Option.map_bind, Function.comp,
        apply_ite (Option.map (fun q : ProcessedMarket => { q with id := i })),
        Option.map_some']
    | some p1 =>
      simp only [bind, Option.map_bind, Function.comp,
        apply_ite (Option.map (fun q : ProcessedMarket => { q with id := i })),
        Option.map_some']
  · intro c q hq
    refine ⟨?_, ?_, ?_⟩
    · intro habs
      have hstep : processOneClob c
          = (pyFloat (c.volume.getD (JVal.num 0))).bind (fun volume =>
              (pyFloat (c.liquidity.getD (JVal.num 0))).bind (fun liquidity =>
                some { id := c.condition_id,
                       question := c.question.getD "N/A",
                       slug := c.slug.getD "", yes_price := 1/2,
                       no_price := 1/2, volume := volume,
                       liquidity := liquidity,
                       end_date := c.end_date_iso.getD "N/A",
                       url := "https://polymarket.com/event/"
                         ++ c.slug.getD "" })) := by
        unfold processOneClob
        rw [habs]
        rfl
      rw [hstep, Option.bind_eq_some] at hq
      obtain ⟨vol, hvol, hq⟩ := hq
      rw [Option.bind_eq_some] at hq
      obtain ⟨liq, hliq, hq⟩ := hq
      injection hq with hq
      subst hq
      exact ⟨rfl, rfl⟩
    · intro habs
      obtain ⟨⟨vol, hvol, hqv⟩, -⟩ := processOneClob_inv hq
      rw [habs] at hvol
      simp only [Option.getD_none, pyFloat_num, Option.some.injEq] at hvol
      subst hvol
      exact hqv
    · intro habs
      obtain ⟨-, ⟨liq, hliq, hql⟩⟩ := processOneClob_inv hq
      rw [habs] at hliq
      simp only [Option.getD_none, pyFloat_num, Option.some.injEq] at hliq
      subst hliq
      exact hql
  · intro c rest q htok hq
    unfold processOneClob at hq
    rw [htok] at hq
    simp only [bind, Option.getD_some, Option.getD_none, pyFloat_num,
      Option.some_bind] at hq
    split at hq
    · rw [Option.bind_eq_some] at hq
      obtain ⟨no, hno, hq⟩ := hq
      rw [Option.bind_eq_some] at hq
      obtain ⟨vol, hvol, hq⟩ := hq
      rw [Option.bind_eq_some] at hq
      obtain ⟨liq, hliq, hq⟩ := hq
      injection hq with hq
      subst hq
      rfl
    · rw [Option.bind_eq_some] at hq
      obtain ⟨vol, hvol, hq⟩ := hq
      rw [Option.bind_eq_some] at hq
      obtain ⟨liq, hliq, hq⟩ := hq
      injection hq with hq
      subst hq
      rfl
  · intro c v rest htok hf
    simp [processOneClob, htok, hf]
  · intro c t0 v rest htok hf
    simp [processOneClob, htok, hf]
  · intro c v hv hf
    cases hres : processOneClob c with
    | none => rfl
    | some q =>
      obtain ⟨⟨vol, hvol, -⟩, -⟩ := processOneClob_inv hres
      rw [hv, Option.getD_some, hf] at hvol
      exact Option.noConfusion hvol
  · intro c v hv hf
    cases hres : processOneClob c with
    | none => rfl
    | some q =>
      obtain ⟨-, ⟨liq, hliq, -⟩⟩ := processOneClob_inv hres
      rw [hv, Option.getD_some, hf] at hliq
      exact Option.noConfusion hliq
  · intro c i
    unfold processOneClob
    dsimp only
    cases htok : c.tokens.getD [] with
    | nil =>
      simp [bind, Option.map_bind, Function.comp, Option.map_some']
    | cons t ts =>
      cases h1 : (t :: ts).get? 1 with
      | none =>
        simp only [h1, bind, Option.map_bind, Function.comp,
          Option.map_some']
      | some t1 =>
        simp only [h1, bind, Option.map_bind, Function.comp,
          Option.map_some']

/-- C3 witness: the all-fields-absent gamma record is kept with the
all-defaults quote whose prices `normalizer_defaults_and_drops` pins at
0.5, and the labelled gamma record with the malformed truthy price is
dropped by the same theorem's malformed-price clause. -/
theorem normalizer_defaults_witness :
    processOneGamma gammaNoFields = some
        { id := none, question := "N/A", slug := "", yes_price := 1/2,
          no_price := 1/2, volume := 0, liquidity := 0, end_date := "N/A",
          url := "https://polymarket.com/event/" }
    ∧ gammaNoFields.outcomePrices = none
    ∧ (({ id := none, question := "N/A", slug := "", yes_price := 1/2,
          no_price := 1/2, volume := 0, liquidity := 0, end_date := "N/A",
          url := "https://polymarket.com/event/" } : ProcessedMarket).yes_price
          = 1/2
       ∧ ({ id := none, question := "N/A", slug := "", yes_price := 1/2,
            no_price := 1/2, volume := 0, liquidity := 0, end_date := "N/A",
            url := "https://polymarket.com/event/" } : ProcessedMarket).no_price
          = 1/2)
    ∧ gammaBadPrice.outcomePrices = some (.badStr :: [.numStr (1/2)])
    ∧ pyTruthy .badStr = true
    ∧ pyFloat .badStr = none
    ∧ processOneGamma gammaBadPrice = none := by
  obtain ⟨-, -, -, -, -, h6, h7, -⟩ := normalizer_defaults_and_drops
  exact ⟨rfl, rfl, (h6 gammaNoFields _ rfl).1 rfl, rfl, rfl, rfl,
    h7 gammaBadPrice .badStr [.numStr (1/2)] rfl rfl rfl⟩

/-- C4: for every quote with p_a + p_b > 1.02 that passes the liquidity
floor and whose percentage meets the threshold, the classifier emits
exactly one Overpriced opportunity whose profit_percentage is
(total − 1)·0.8·100 — a formula free of the price level and of the
investment amount — with risk tier Low. -/
theorem overpriced_pct_formula (m : ProcessedMarket) (T M : ℚ)
    (hfloor : ¬ min (m.liquidity * (1/10)) M < 10)
    (htot : 102/100 < m.yes_price + m.no_price)
    (hthr : T ≤ (m.yes_price + m.no_price - 1) * (8/10) * 100) :
    classifyMarketE m T M = .ok
      [{ type := "Overpriced", question := m.question,
         strategy := "Provide liquidity or short both",
         yes_price := m.yes_price, no_price := m.no_price,
         total_price := m.yes_price + m.no_price,
         investment := investmentOf m M,
         profit := investmentOf m M * (m.yes_price + m.no_price - 1) * (8/10),
         profit_pct := (m.yes_price + m.no_price - 1) * (8/10) * 100,
         risk := "Low", liquidity := m.liquidity, url := m.url }] := by
  have hA : (10:ℚ) ≤ min (m.liquidity * (1/10)) M := not_lt.mp hfloor
  have hinv : (0:ℚ) < investmentOf m M := by
    have hM : (10:ℚ) ≤ M := le_trans hA (min_le_right _ _)
    have : (10:ℚ) ≤ investmentOf m M := le_min hM hA
    linarith
  have key : investmentOf m M * (m.yes_price + m.no_price - 1) * (8/10)
      / investmentOf m M * 100
      = (m.yes_price + m.no_price - 1) * (8/10) * 100 := by
    field_simp
    ring
  unfold classifyMarketE
  rw [if_neg hfloor, if_neg (by linarith : ¬ m.yes_price + m.no_price < 98/100),
    if_pos htot]
  simp only [investmentOf] at key hthr ⊢
  rw [key, if_pos hthr]

/-- C4 witness: the spec's overpriced worked example (prices 0.6/0.5,
liquidity 1000, T = 2, M = 100) yields the Overpriced opportunity with
profit 8 and profit percentage 8. -/
theorem overpriced_pct_formula_witness :
    (¬ min ((sampleQuote (60/100) (50/100) 1000).liquidity * (1/10)) 100 < 10)
    ∧ ((102:ℚ)/100 < (sampleQuote (60/100) (50/100) 1000).yes_price
        + (sampleQuote (60/100) (50/100) 1000).no_price)
    ∧ ((2:ℚ) ≤ ((sampleQuote (60/100) (50/100) 1000).yes_price
        + (sampleQuote (60/100) (50/100) 1000).no_price - 1) * (8/10) * 100)
    ∧ classifyMarketE (sampleQuote (60/100) (50/100) 1000) 2 100
        = .ok [overpricedSampleOpp] := by
  refine ⟨by norm_num [sampleQuote], by norm_num [sampleQuote],
    by norm_num [sampleQuote], ?_⟩
  have happ := overpriced_pct_formula (sampleQuote (60/100) (50/100) 1000) 2 100
    (by norm_num [sampleQuote]) (by norm_num [sampleQuote])
    (by norm_num [sampleQuote])
  rw [happ]
  norm_num [sampleQuote, investmentOf, overpricedSampleOpp]

/-- C5: a Value Bet opportunity carries a profit percentage of at least
2·T, and it can only arise when the sure-win and overpriced branches did
not apply, the yes price is extreme (< 0.15 or > 0.85), and liquidity
exceeds 5000. -/
theorem valueBet_double_threshold (m : ProcessedMarket) (T M : ℚ)
    (l : List Opp) (o : Opp)
    (h : classifyMarketE m T M = .ok l) (ho : o ∈ l)
    (hv : o.type = "Value Bet") :
    2 * T ≤ o.profit_pct
    ∧ ¬ (m.yes_price + m.no_price < 98/100)
    ∧ ¬ (102/100 < m.yes_price + m.no_price)
    ∧ (m.yes_price < 15/100 ∨ 85/100 < m.yes_price)
    ∧ 5000 < m.liquidity := by
  simp only [classifyMarketE] at h
  by_cases c1 : min (m.liquidity * (1/10)) M < 10
  · rw [if_pos c1] at h
    simp only [Except.ok.injEq] at h
    subst h
    simp at ho
  · rw [if_neg c1] at h
    by_cases c2 : m.yes_price + m.no_price < 98/100
    · rw [if_pos c2] at h
      by_cases c3 : m.yes_price = 0 ∨ m.no_price = 0
      · rw [if_pos c3] at h
        exact (Except.noConfusion h)
      · rw [if_neg c3] at h
        by_cases c4 : T ≤ (min (min M (min (m.liquidity * (1/10)) M) * (1/2) / m.yes_price)
            (min M (min (m.liquidity * (1/10)) M) * (1/2) / m.no_price)
            - min M (min (m.liquidity * (1/10)) M))
            / min M (min (m.liquidity * (1/10)) M) * 100
        · rw [if_pos c4] at h
          simp only [Except.ok.injEq] at h
          subst h
          simp only [List.mem_singleton] at ho
          subst ho
          simp at hv
        · rw [if_neg c4] at h
          simp only [Except.ok.injEq] at h
          subst h
          simp at ho
    · rw [if_neg c2] at h
      by_cases c5 : 102/100 < m.yes_price + m.no_price
      · rw [if_pos c5] at h
        by_cases c6 : T ≤ min M (min (m.liquidity * (1/10)) M)
            * (m.yes_price + m.no_price - 1) * (8/10)
            / min M (min (m.liquidity * (1/10)) M) * 100
        · rw [if_pos c6] at h
          simp only [Except.ok.injEq] at h
          subst h
          simp only [List.mem_singleton] at ho
          subst ho
          simp at hv
        · rw [if_neg c6] at h
          simp only [Except.ok.injEq] at h
          subst h
          simp at ho
      · rw [if_neg c5] at h
        by_cases c7 : (m.yes_price < 15/100 ∨ 85/100 < m.yes_price)
            ∧ 5000 < m.liquidity
        · rw [if_pos c7] at h
          by_cases c9 : T * 2 ≤ min M (min (m.liquidity * (1/10)) M)
              * |(if m.yes_price < 15/100 then (1/4 : ℚ) else 3/4) - m.yes_price|
              / min M (min (m.liquidity * (1/10)) M) * 100
          · rw [if_pos c9] at h
            simp only [Except.ok.injEq] at h
            subst h
            simp only [List.mem_singleton] at ho
            subst ho
            exact ⟨by simpa [mul_comm] using c9, c2, c5, c7.1, c7.2⟩
          · rw [if_neg c9] at h
            simp only [Except.ok.injEq] at h
            subst h
            simp at ho
        · rw [if_neg c7] at h
          simp only [Except.ok.injEq] at h
          subst h
          simp at ho

/-- C5 witness: the quote with yes price 0.1, no price 0.88 and liquidity
6000 at T = 2 emits a Value Bet with profit percentage 15 ≥ 2·2, in the
value-bet band with untriggered earlier branches. -/
theorem valueBet_double_threshold_witness :
    classifyMarketE (sampleQuote (1/10) (88/100) 6000) 2 100
      = .ok [valueBetSampleOpp]
    ∧ valueBetSampleOpp ∈ [valueBetSampleOpp]
    ∧ valueBetSampleOpp.type = "Value Bet"
    ∧ (2 * 2 ≤ valueBetSampleOpp.profit_pct
       ∧ ¬ ((sampleQuote (1/10) (88/100) 6000).yes_price
            + (sampleQuote (1/10) (88/100) 6000).no_price < 98/100)
       ∧ ¬ ((102:ℚ)/100 < (sampleQuote (1/10) (88/100) 6000).yes_price
            + (sampleQuote (1/10) (88/100) 6000).no_price)
       ∧ ((sampleQuote (1/10) (88/100) 6000).yes_price < 15/100
          ∨ (85:ℚ)/100 < (sampleQuote (1/10) (88/100) 6000).yes_price)
       ∧ (5000:ℚ) < (sampleQuote (1/10) (88/100) 6000).liquidity) := by
  have heval : classifyMarketE (sampleQuote (1/10) (88/100) 6000) 2 100
      = .ok [valueBetSampleOpp] := by
    simp only [classifyMarketE, sampleQuote]
    norm_num [valueBetSampleOpp, abs_of_pos]
    rfl
  exact ⟨heval, by simp, rfl,
    valueBet_double_threshold (sampleQuote (1/10) (88/100) 6000) 2 100
      [valueBetSampleOpp] valueBetSampleOpp heval (by simp) rfl⟩

/-- C8: the investment of every emitted opportunity is bounded by
min(max_investment, liquidity·0.10), and an instrument whose available
liquidity min(liquidity·0.10, max_investment) is below $10 emits no
opportunity at all. -/
theorem investment_cap_and_floor (m : ProcessedMarket) (T M : ℚ) :
    (min (m.liquidity * (1/10)) M < 10 → classifyMarketE m T M = .ok [])
    ∧ (∀ l, classifyMarketE m T M = .ok l → ∀ o ∈ l,
        o.investment ≤ min M (m.liquidity * (1/10))) := by
  have hcap : min M (min (m.liquidity * (1/10)) M)
      ≤ min M (m.liquidity * (1/10)) :=
    le_min (min_le_left _ _)
      (le_trans (min_le_right _ _) (min_le_left _ _))
  constructor
  · intro hlt
    unfold classifyMarketE
    rw [if_pos hlt]
  · intro l h o ho
    simp only [classifyMarketE] at h
    by_cases c1 : min (m.liquidity * (1/10)) M < 10
    · rw [if_pos c1] at h
      simp only [Except.ok.injEq] at h
      subst h
      simp at ho
    · rw [if_neg c1] at h
      by_cases c2 : m.yes_price + m.no_price < 98/100
      · rw [if_pos c2] at h
        by_cases c3 : m.yes_price = 0 ∨ m.no_price = 0
        · rw [if_pos c3] at h
          exact (Except.noConfusion h)
        · rw [if_neg c3] at h
          by_cases c4 : T ≤ (min (min M (min (m.liquidity * (1/10)) M) * (1/2) / m.yes_price)
              (min M (min (m.liquidity * (1/10)) M) * (1/2) / m.no_price)
              - min M (min (m.liquidity * (1/10)) M))
              / min M (min (m.liquidity * (1/10)) M) * 100
          · rw [if_pos c4] at h
            simp only [Except.ok.injEq] at h
            subst h
            simp only [List.mem_singleton] at ho
            subst ho
            exact hcap
          · rw [if_neg c4] at h
            simp only [Except.ok.injEq] at h
            subst h
            simp at ho
      · rw [if_neg c2] at h
        by_cases c5 : 102/100 < m.yes_price + m.no_price
        · rw [if_pos c5] at h
          by_cases c6 : T ≤ min M (min (m.liquidity * (1/10)) M)
              * (m.yes_price + m.no_price - 1) * (8/10)
              / min M (min (m.liquidity * (1/10)) M) * 100
          · rw [if_pos c6] at h
            simp only [Except.ok.injEq] at h
            subst h
            simp only [List.mem_singleton] at ho
            subst ho
            exact hcap
          · rw [if_neg c6] at h
            simp only [Except.ok.injEq] at h
            subst h
            simp at ho
        · rw [if_neg c5] at h
          by_cases c7 : (m.yes_price < 15/100 ∨ 85/100 < m.yes_price)
              ∧ 5000 < m.liquidity
          · rw [if_pos c7] at h
            by_cases c9 : T * 2 ≤ min M (min (m.liquidity * (1/10)) M)
                * |(if m.yes_price < 15/100 then (1/4 : ℚ) else 3/4) - m.yes_price|
                / min M (min (m.liquidity * (1/10)) M) * 100
            · rw [if_pos c9] at h
              simp only [Except.ok.injEq] at h
              subst h
              simp only [List.mem_singleton] at ho
              subst ho
              exact hcap
            · rw [if_neg c9] at h
              simp only [Except.ok.injEq] at h
              subst h
              simp at ho
          · rw [if_neg c7] at h
            simp only [Except.ok.injEq] at h
            subst h
            simp at ho

/-- C8 witness: a quote with liquidity 50 (available liquidity $5) emits
nothing, and the emitted sure-win sample's investment of 100 respects the
cap min(100, 2000·0.10). -/
theorem investment_cap_and_floor_witness :
    (min ((sampleQuote (1/2) (1/2) 50).liquidity * (1/10)) 100 < 10
     ∧ classifyMarketE (sampleQuote (1/2) (1/2) 50) 2 100 = .ok [])
    ∧ (classifyMarketE (sampleQuote (45/100) (47/100) 2000) 2 100
        = .ok [sureWinSampleOpp]
       ∧ sureWinSampleOpp ∈ [sureWinSampleOpp]
       ∧ sureWinSampleOpp.investment
          ≤ min 100 ((sampleQuote (45/100) (47/100) 2000).liquidity * (1/10))) := by
  have heval : classifyMarketE (sampleQuote (45/100) (47/100) 2000) 2 100
      = .ok [sureWinSampleOpp] := by
    simp only [classifyMarketE, sampleQuote]
    norm_num [sureWinSampleOpp]
  refine ⟨⟨by norm_num [sampleQuote],
    (investment_cap_and_floor (sampleQuote (1/2) (1/2) 50) 2 100).1
      (by norm_num [sampleQuote])⟩,
    heval, by simp,
    (investment_cap_and_floor (sampleQuote (45/100) (47/100) 2000) 2 100).2
      [sureWinSampleOpp] heval sureWinSampleOpp (by simp)⟩

/-- `oppLE` read back as an order on the ranking key. -/
lemma oppLE_eq_true_iff (a b : Opp) : oppLE a b = true ↔
    (riskIdx a < riskIdx b ∨
      (riskIdx a = riskIdx b ∧ b.profit_pct ≤ a.profit_pct)) := by
  simp [oppLE]

/-- Totality of the ranking comparison. -/
lemma oppLE_total (a b : Opp) : (oppLE a b || oppLE b a) = true := by
  simp only [Bool.or_eq_true, oppLE_eq_true_iff]
  rcases lt_trichotomy (riskIdx a) (riskIdx b) with h | h | h
  · exact Or.inl (Or.inl h)
  · rcases le_total b.profit_pct a.profit_pct with hp | hp
    · exact Or.inl (Or.inr ⟨h, hp⟩)
    · exact Or.inr (Or.inr ⟨h.symm, hp⟩)
  · exact Or.inr (Or.inl h)

/-- Transitivity of the ranking comparison. -/
lemma oppLE_trans (a b c : Opp) (hab : oppLE a b = true)
    (hbc : oppLE b c = true) : oppLE a c = true := by
  rw [oppLE_eq_true_iff] at hab hbc ⊢
  rcases hab with h1 | ⟨h1, hp1⟩
  · rcases hbc with h2 | ⟨h2, hp2⟩
    · exact Or.inl (lt_trans h1 h2)
    · exact Or.inl (h2 ▸ h1)
  · rcases hbc with h2 | ⟨h2, hp2⟩
    · exact Or.inl (h1 ▸ h2)
    · exact Or.inr ⟨h1.trans h2, le_trans hp2 hp1⟩

/-- C7: the ranker's output is a permutation of its input, is pairwise
ordered by the key (risk tier None first, then profit percentage
descending), and is stable — two opportunities with identical risk tier
and profit percentage keep their original relative order. -/
theorem ranker_order_and_stability (l : List Opp) :
    List.Perm (rankOpportunities l) l
    ∧ List.Pairwise (fun a b => riskIdx a < riskIdx b ∨
        (riskIdx a = riskIdx b ∧ b.profit_pct ≤ a.profit_pct))
        (rankOpportunities l)
    ∧ (∀ a b : Opp, a.risk = b.risk → a.profit_pct = b.profit_pct →
        List.Sublist [a, b] l →
        List.Sublist [a, b] (rankOpportunities l)) := by
  refine ⟨List.mergeSort_perm l oppLE, ?_, ?_⟩
  · have hs := List.sorted_mergeSort
      (fun a b c hab hbc => oppLE_trans a b c hab hbc)
      (fun a b => oppLE_total a b) l
    exact hs.imp (fun hab => (oppLE_eq_true_iff _ _).mp hab)
  · intro a b hr hp hsub
    have hab : oppLE a b = true := by
      rw [oppLE_eq_true_iff]
      exact Or.inr ⟨by simp [riskIdx, hr], le_of_eq hp.symm⟩
    exact List.pair_sublist_mergeSort
      (fun x y z hxy hyz => oppLE_trans x y z hxy hyz)
      (fun x y => oppLE_total x y) hab hsub

/-- C7 witness: two opportunities that agree on risk tier and profit
percentage keep their discovery order through the ranker. -/
theorem ranker_order_and_stability_witness :
    rankSampleA.risk = rankSampleB.risk
    ∧ rankSampleA.profit_pct = rankSampleB.profit_pct
    ∧ List.Sublist [rankSampleA, rankSampleB] [rankSampleA, rankSampleB]
    ∧ List.Sublist [rankSampleA, rankSampleB]
        (rankOpportunities [rankSampleA, rankSampleB]) :=
  ⟨rfl, rfl, List.Sublist.refl _,
    (ranker_order_and_stability [rankSampleA, rankSampleB]).2.2
      rankSampleA rankSampleB rfl rfl (List.Sublist.refl _)⟩

/-- The running minimum over the price-dict fold is either the seed or a
visited entry, and is a lower bound on the seed and all visited values. -/
lemma minFold_spec (xs : List (String × ℚ)) (a : String × ℚ) :
    (xs.foldl (fun acc y => if y.2 < acc.2 then y else acc) a = a ∨
     xs.foldl (fun acc y => if y.2 < acc.2 then y else acc) a ∈ xs)
    ∧ (xs.foldl (fun acc y => if y.2 < acc.2 then y else acc) a).2 ≤ a.2
    ∧ ∀ y ∈ xs, (xs.foldl (fun acc y => if y.2 < acc.2 then y else acc) a).2 ≤ y.2 := by
  induction xs generalizing a with
  | nil => exact ⟨Or.inl rfl, le_refl _, by simp⟩
  | cons x xs ih =>
    simp only [List.foldl_cons]
    rcases ih (if x.2 < a.2 then x else a) with ⟨hmem, hle, hall⟩
    refine ⟨?_, ?_, ?_⟩
    · rcases hmem with h | h
      · rw [h]
        split
        · exact Or.inr (List.mem_cons_self _ _)
        · exact Or.inl rfl
      · exact Or.inr (List.mem_cons_of_mem _ h)
    · refine le_trans hle ?_
      split
      · rename_i hlt
        exact le_of_lt hlt
      · exact le_refl _
    · intro y hy
      rcases List.mem_cons.mp hy with rfl | hy
      · refine le_trans hle ?_
        split
        · exact le_refl _
        · rename_i hlt
          exact le_of_not_lt hlt
      · exact hall y hy

/-- Dual of `minFold_spec` for the running maximum. -/
lemma maxFold_spec (xs : List (String × ℚ)) (a : String × ℚ) :
    (xs.foldl (fun acc y => if acc.2 < y.2 then y else acc) a = a ∨
     xs.foldl (fun acc y => if acc.2 < y.2 then y else acc) a ∈ xs)
    ∧ a.2 ≤ (xs.foldl (fun acc y => if acc.2 < y.2 then y else acc) a).2
    ∧ ∀ y ∈ xs, y.2 ≤ (xs.foldl (fun acc y => if acc.2 < y.2 then y else acc) a).2 := by
  induction xs generalizing a with
  | nil => exact ⟨Or.inl rfl, le_refl _, by simp⟩
  | cons x xs ih =>
    simp only [List.foldl_cons]
    rcases ih (if a.2 < x.2 then x else a) with ⟨hmem, hle, hall⟩
    refine ⟨?_, ?_, ?_⟩
    · rcases hmem with h | h
      · rw [h]
        split
        · exact Or.inr (List.mem_cons_self _ _)
        · exact Or.inl rfl
      · exact Or.inr (List.mem_cons_of_mem _ h)
    · refine le_trans ?_ hle
      split
      · rename_i hlt
        exact le_of_lt hlt
      · exact le_refl _
    · intro y hy
      rcases List.mem_cons.mp hy with rfl | hy
      · refine le_trans ?_ hle
        split
        · exact le_refl _
        · rename_i hlt
          exact le_of_not_lt hlt
      · exact hall y hy

/-- The Python `min(prices, key=prices.get)` result is an entry of the dict
and carries its least value. -/
lemma minByVal_spec {l : List (String × ℚ)} {x : String × ℚ}
    (h : minByVal l = some x) : x ∈ l ∧ ∀ y ∈ l, x.2 ≤ y.2 := by
  cases l with
  | nil => simp [minByVal] at h
  | cons a as =>
    simp only [minByVal, Option.some.injEq] at h
    subst h
    rcases minFold_spec as a with ⟨hmem, hle, hall⟩
    constructor
    · rcases hmem with h | h
      · rw [h]
        exact List.mem_cons_self _ _
      · exact List.mem_cons_of_mem _ h
    · intro y hy
      rcases List.mem_cons.mp hy with rfl | hy
      · exact hle
      · exact hall y hy

/-- The Python `max(prices, key=prices.get)` result is an entry of the dict
and carries its greatest value. -/
lemma maxByVal_spec {l : List (String × ℚ)} {x : String × ℚ}
    (h : maxByVal l = some x) : x ∈ l ∧ ∀ y ∈ l, y.2 ≤ x.2 := by
  cases l with
  | nil => simp [maxByVal] at h
  | cons a as =>
    simp only [maxByVal, Option.some.injEq] at h
    subst h
    rcases maxFold_spec as a with ⟨hmem, hle, hall⟩
    constructor
    · rcases hmem with h | h
      · rw [h]
        exact List.mem_cons_self _ _
      · exact List.mem_cons_of_mem _ h
    · intro y hy
      rcases List.mem_cons.mp hy with rfl | hy
      · exact hle
      · exact hall y hy

/-- Every collected price entry comes from a fetch that returned a nonzero
price. -/
lemma collectPrices_mem {fetch : String → Option ℚ} {exchanges : List String}
    {x : String × ℚ} (h : x ∈ collectPrices fetch exchanges) :
    fetch x.1 = some x.2 ∧ x.2 ≠ 0 := by
  simp only [collectPrices, List.mem_filterMap] at h
  obtain ⟨e, -, he⟩ := h
  obtain ⟨p, hf, hif⟩ := Option.bind_eq_some.mp he
  split at hif
  · rename_i hp
    injection hif with h2
    subst h2
    exact ⟨hf, hp⟩
  · exact absurd hif (by simp)

/-- A filterMap that only ever keeps an element unchanged yields a sublist. -/
lemma filterMap_self_sublist {α : Type} (f : α → Option α)
    (hf : ∀ a b, f a = some b → b = a) :
    ∀ l : List α, List.Sublist (l.filterMap f) l := by
  intro l
  induction l with
  | nil => simp
  | cons x xs ih =>
    rw [List.filterMap_cons]
    cases hx : f x with
    | none => exact ih.cons x
    | some b =>
      have hb : b = x := hf x b hx
      subst hb
      exact ih.cons₂ b

/-- The exchange names of the collected price dict form a sublist of the
exchange list, hence are distinct when the exchange list is. -/
lemma collectPrices_fst_sublist (fetch : String → Option ℚ)
    (exchanges : List String) :
    List.Sublist ((collectPrices fetch exchanges).map Prod.fst) exchanges := by
  rw [collectPrices, List.map_filterMap]
  apply filterMap_self_sublist
  intro a b hab
  cases hf : fetch a with
  | none =>
    rw [hf] at hab
    simp at hab
  | some p =>
    rw [hf] at hab
    by_cases hp : p ≠ 0
    · simp [hp] at hab
      exact hab.symm
    · simp [hp] at hab

/-- Anatomy of an emitted cross-exchange opportunity: its buy and sell
sides are the argmin and argmax of the collected price dict, its
percentage is the spread formula, and at least two prices were present
with the threshold met. -/
lemma detectSymbol_mem_spec {fetch : String → Option ℚ}
    {exchanges : List String} {T : ℚ} {symbol : String} {o : ExOpp}
    (ho : o ∈ detectSymbol fetch exchanges T symbol) :
    minByVal (collectPrices fetch exchanges) = some (o.buy_exchange, o.buy_price)
    ∧ maxByVal (collectPrices fetch exchanges) = some (o.sell_exchange, o.sell_price)
    ∧ o.profit_percentage = spreadPct (collectPrices fetch exchanges)
    ∧ o.token_pair = symbol
    ∧ 2 ≤ (collectPrices fetch exchanges).length
    ∧ T ≤ o.profit_percentage := by
  simp only [detectSymbol] at ho
  cases hP : collectPrices fetch exchanges with
  | nil =>
    rw [hP] at ho
    simp at ho
  | cons x xs =>
    rw [hP] at ho
    by_cases hlen : 2 ≤ (x :: xs).length
    · rw [if_pos hlen] at ho
      simp only [minByVal, maxByVal] at ho
      by_cases hT : T ≤ ((xs.foldl (fun acc y => if acc.2 < y.2 then y else acc) x).2
          - (xs.foldl (fun acc y => if y.2 < acc.2 then y else acc) x).2)
          / (xs.foldl (fun acc y => if y.2 < acc.2 then y else acc) x).2 * 100
      · rw [if_pos hT] at ho
        simp only [List.mem_singleton] at ho
        subst ho
        refine ⟨?_, ?_, ?_, rfl, ?_, hT⟩
        · simp [minByVal]
        · simp [maxByVal]
        · simp [spreadPct, minByVal, maxByVal]
        · exact hlen
      · rw [if_neg hT] at ho
        simp at ho
    · rw [if_neg hlen] at ho
      simp at ho

/-- C6: over a duplicate-free exchange list, the collected sources are
distinct, a cross-exchange opportunity is emitted for a symbol iff at
least two sources reported a usable price and the spread percentage meets
the threshold, exactly one valid price yields no opportunity regardless of
the threshold, and any emitted opportunity buys at the argmin price and
sells at the argmax price. -/
theorem crossExchange_two_sources (fetch : String → Option ℚ)
    (exchanges : List String) (T : ℚ) (symbol : String)
    (hnd : exchanges.Nodup) :
    ((collectPrices fetch exchanges).map Prod.fst).Nodup
    ∧ (detectSymbol fetch exchanges T symbol ≠ [] ↔
        2 ≤ (collectPrices fetch exchanges).length
        ∧ T ≤ spreadPct (collectPrices fetch exchanges))
    ∧ ((collectPrices fetch exchanges).length = 1 →
        detectSymbol fetch exchanges T symbol = [])
    ∧ (∀ o ∈ detectSymbol fetch exchanges T symbol,
        minByVal (collectPrices fetch exchanges) = some (o.buy_exchange, o.buy_price)
        ∧ maxByVal (collectPrices fetch exchanges) = some (o.sell_exchange, o.sell_price)
        ∧ o.profit_percentage = spreadPct (collectPrices fetch exchanges)
        ∧ o.token_pair = symbol) := by
  refine ⟨List.Nodup.sublist (collectPrices_fst_sublist fetch exchanges) hnd,
    ?_, ?_, ?_⟩
  · simp only [detectSymbol]
    cases hP : collectPrices fetch exchanges with
    | nil => simp
    | cons x xs =>
      simp only [minByVal, maxByVal, spreadPct]
      split
      · rename_i hlen
        split
        · rename_i hT
          constructor
          · intro _
            exact ⟨hlen, hT⟩
          · intro _
            simp
        · rename_i hT
          constructor
          · intro hc
            exact absurd rfl hc
          · intro hrhs
            exact absurd hrhs.2 hT
      · rename_i hlen
        constructor
        · intro hc
          exact absurd rfl hc
        · intro hrhs
          exact absurd hrhs.1 hlen
  · intro h1
    simp only [detectSymbol]
    cases hP : collectPrices fetch exchanges with
    | nil => simp
    | cons x xs =>
      rw [hP] at h1
      have hnot : ¬ 2 ≤ (x :: xs).length := by
        simp only [List.length_cons] at h1 ⊢
        omega
      rw [if_neg hnot]
  · intro o ho
    obtain ⟨h1, h2, h3, h4, -, -⟩ := detectSymbol_mem_spec ho
    exact ⟨h1, h2, h3, h4⟩

/-- C6 witness: with sources A at 100, B at 101.5 and C unusable (the
spec's worked example), the emission iff holds at threshold 1. -/
theorem crossExchange_two_sources_witness :
    (["A", "B", "C"] : List String).Nodup
    ∧ (detectSymbol sampleFetch ["A", "B", "C"] 1 "X" ≠ [] ↔
        2 ≤ (collectPrices sampleFetch ["A", "B", "C"]).length
        ∧ 1 ≤ spreadPct (collectPrices sampleFetch ["A", "B", "C"])) :=
  ⟨by decide,
   (crossExchange_two_sources sampleFetch ["A", "B", "C"] 1 "X" (by decide)).2.1⟩

/-- C10: when every fetched price is nonnegative, each emitted
cross-exchange opportunity has a strictly positive buy price, a sell price
at least as large, and hence nonnegative profit per unit — because sources
reporting no price or exactly 0.0 are excluded from the dict. -/
theorem dex_emitted_prices_positive (fetch : String → Option ℚ)
    (exchanges : List String) (T : ℚ) (symbol : String)
    (hfetch : ∀ e p, fetch e = some p → 0 ≤ p) :
    ∀ o ∈ detectSymbol fetch exchanges T symbol,
      0 < o.buy_price ∧ o.buy_price ≤ o.sell_price
      ∧ 0 ≤ o.profit_per_unit := by
  intro o ho
  obtain ⟨hmn, hmx, -, -, -, -⟩ := detectSymbol_mem_spec ho
  obtain ⟨hmn_mem, hmn_le⟩ := minByVal_spec hmn
  obtain ⟨hmx_mem, -⟩ := maxByVal_spec hmx
  obtain ⟨hf, hne⟩ := collectPrices_mem hmn_mem
  have hpos : 0 < o.buy_price := lt_of_le_of_ne (hfetch _ _ hf) (Ne.symm hne)
  have hle : o.buy_price ≤ o.sell_price := hmn_le _ hmx_mem
  refine ⟨hpos, hle, ?_⟩
  simp only [ExOpp.profit_per_unit]
  linarith

/-- C10 witness: the sample fetch returns only nonnegative prices, so every
opportunity it produces has positive buy price below its sell price. -/
theorem dex_emitted_prices_positive_witness :
    (∀ e p, sampleFetch e = some p → (0:ℚ) ≤ p)
    ∧ ∀ o ∈ detectSymbol sampleFetch ["A", "B", "C"] 1 "X",
        0 < o.buy_price ∧ o.buy_price ≤ o.sell_price
        ∧ 0 ≤ o.profit_per_unit := by
  have hfetch : ∀ e p, sampleFetch e = some p → (0:ℚ) ≤ p := by
    intro e p h
    simp only [sampleFetch] at h
    split at h
    · injection h with h2
      subst h2
      norm_num
    · split at h
      · injection h with h2
        subst h2
        norm_num
      · exact absurd h (by simp)
  exact ⟨hfetch,
    dex_emitted_prices_positive sampleFetch ["A", "B", "C"] 1 "X" hfetch⟩

/-- C9: one dashboard scan's history update keeps at most 100 entries
whenever the incoming history is within the bound, and a scan that appends
opportunities leaves a history of at most 100 entries that is a suffix of
the old history extended by the new opportunities — the oldest entries are
evicted first and the survivors keep their order. -/
theorem history_bounded_fifo (history opportunities : List ExOpp) :
    (history.length ≤ 100 →
      (updateOpportunitiesHistory history opportunities).length ≤ 100)
    ∧ (opportunities ≠ [] →
        (updateOpportunitiesHistory history opportunities).length ≤ 100
        ∧ (updateOpportunitiesHistory history opportunities).IsSuffix
            (history ++ opportunities)) := by
  unfold updateOpportunitiesHistory
  by_cases hemp : opportunities = []
  · rw [if_pos hemp]
    refine ⟨fun h => h, fun hne => absurd hemp hne⟩
  · rw [if_neg hemp]
    by_cases hlen : 100 < (history ++ opportunities).length
    · rw [if_pos hlen]
      have hdroplen : ((history ++ opportunities).drop
          ((history ++ opportunities).length - 100)).length ≤ 100 := by
        rw [List.length_drop]
        omega
      exact ⟨fun _ => hdroplen,
        fun _ => ⟨hdroplen, List.drop_suffix _ _⟩⟩
    · rw [if_neg hlen]
      push_neg at hlen
      exact ⟨fun _ => hlen, fun _ => ⟨hlen, List.suffix_refl _⟩⟩

/-- C9 witness: appending one opportunity to a two-entry history keeps the
bound and yields a suffix of the extended history. -/
theorem history_bounded_fifo_witness :
    ([dexOppSample, dexOppSample] : List ExOpp).length ≤ 100
    ∧ ([dexOppSample] : List ExOpp) ≠ []
    ∧ (updateOpportunitiesHistory [dexOppSample, dexOppSample]
        [dexOppSample]).length ≤ 100
    ∧ (updateOpportunitiesHistory [dexOppSample, dexOppSample]
        [dexOppSample]).IsSuffix
        ([dexOppSample, dexOppSample] ++ [dexOppSample]) := by
  have h := history_bounded_fifo [dexOppSample, dexOppSample] [dexOppSample]
  exact ⟨by simp, by simp,
    (h.2 (by simp)).1, (h.2 (by simp)).2⟩

end PolyArb
